import Mathlib

/-!
Verification development for the MusicScoreViewer repository
(src/MusicScoreViewer.py).

The code under `src/` is embedded shallowly:

* `_rotate_annotation_coords` and the point-rotation loop inside it become
  pure functions over `ℚ × ℚ` (Python floats carry exact small rationals in
  every scenario of interest; the spec's "within floating tolerance" is
  subsumed by exact rational equality).
* `AnnotationManager`'s in-memory state (`annotations`, `rotations`,
  `_undo_stack`) becomes the structure `AMState`, with Python dicts embedded
  as association lists and `collections.deque(maxlen=20)` embedded by
  `dequeAppend`.  `deepcopy` is the identity under Lean's value semantics.
* `SafeJSON.load` / `SafeJSON.save` become functions over an explicit
  filesystem model `FS`; `json.dump`/`json.load` are modelled structurally
  (a file holds either a parsed `Json` value, unparseable text, or is
  unreadable), and `tempfile.mkstemp`'s fresh name is passed as an argument.
* `uuid.uuid4()` is modelled as an injective generator `gen : Nat → String`
  threaded through `AnnotationManager.load` with a counter.
-/

/-! ## NormalizedGeometry: point rotation (`_rotate_annotation_coords`) -/

/-- One 90° clockwise step in normalised space: `nx, ny = 1.0 - ny, nx`
(the loop body of `_rot_pt` in `_rotate_annotation_coords`). -/
def rotStep (p : ℚ × ℚ) : ℚ × ℚ := (1 - p.2, p.1)

/-- `n` repetitions of `rotStep` (the `for _ in range(steps)` loop). -/
def rotStepN : Nat → ℚ × ℚ → ℚ × ℚ
  | 0, p => p
  | n + 1, p => rotStepN n (rotStep p)

/-- `steps = (delta // 90) % 4` with Python floor division and
nonnegative modulus (`Int.fdiv` / `Int.emod`). -/
def rotationSteps (delta : Int) : Nat := (Int.emod (Int.fdiv delta 90) 4).toNat

/-- Rotate one normalised point by `delta` degrees clockwise, exactly as
`_rot_pt` inside `_rotate_annotation_coords` does. -/
def rotPt (delta : Int) (p : ℚ × ℚ) : ℚ × ℚ := rotStepN (rotationSteps delta) p

/-! ## Annotation records -/

/-- Payload of an ink record: `points`, `color`, `width`. -/
structure InkData where
  points : List (ℚ × ℚ)
  color : String
  width : Int
deriving DecidableEq

/-- Payload of a text record: `x`, `y`, `text`, `font`, `color`, `size`. -/
structure TextData where
  x : ℚ
  y : ℚ
  text : String
  font : String
  color : String
  size : Int
deriving DecidableEq

/-- The `type` tag of a record: `"ink"` or `"text"`. -/
inductive AnnotKind where
  | ink (d : InkData)
  | text (d : TextData)
deriving DecidableEq

/-- One record dict: an optional `uuid` (legacy records lack it) plus the
typed payload. -/
structure Annot where
  uuid : Option String
  kind : AnnotKind
deriving DecidableEq

/-- `_rotate_annotation_coords` on a single record: ink points are mapped
through `_rot_pt`; a text anchor is mapped through `_rot_pt`. -/
def rotateAnnot (delta : Int) (a : Annot) : Annot :=
  match a.kind with
  | AnnotKind.ink d =>
      { a with kind := AnnotKind.ink { d with points := d.points.map (rotPt delta) } }
  | AnnotKind.text d =>
      let q := rotPt delta (d.x, d.y)
      { a with kind := AnnotKind.text { d with x := q.1, y := q.2 } }

/-- `_rotate_annotation_coords(annotations, delta)`: rotate every record of
one page in place. -/
def rotateAnnotCoords (annots : List Annot) (delta : Int) : List Annot :=
  annots.map (rotateAnnot delta)

/-! ## Association lists (Python dict embedding) -/

/-- `dict.get(k)` — first binding for `k`, if any. -/
def alFind {κ α : Type} [DecidableEq κ] : List (κ × α) → κ → Option α
  | [], _ => none
  | (k', v) :: rest, k => if k' = k then some v else alFind rest k

/-- `dict.get(k, d)` — binding for `k` or the default `d`. -/
def alGet {κ α : Type} [DecidableEq κ] (l : List (κ × α)) (k : κ) (d : α) : α :=
  (alFind l k).getD d

/-- `dict[k] = v` — replace the binding for `k`, or append one. -/
def alSet {κ α : Type} [DecidableEq κ] : List (κ × α) → κ → α → List (κ × α)
  | [], k, v => [(k, v)]
  | (k', v') :: rest, k, v =>
      if k' = k then (k, v) :: rest else (k', v') :: alSet rest k v

/-! ## AnnotationManager in-memory state -/

/-- `AnnotationManager.UNDO_DEPTH`. -/
def UNDO_DEPTH : Nat := 20

/-- `collections.deque(maxlen=cap).append x`: drop the oldest element when
the deque is full, then append on the right. -/
def dequeAppend {α : Type} (cap : Nat) (q : List α) (x : α) : List α :=
  if cap ≤ q.length then q.drop 1 ++ [x] else q ++ [x]

/-- The in-memory fields of `AnnotationManager` that the claims concern:
`annotations` (page → record list), `rotations` (page → degrees), and
`_undo_stack` (page → deque of snapshots, oldest first). -/
structure AMState where
  annots : List (Nat × List Annot)
  rotations : List (Nat × Int)
  undoStack : List (Nat × List (List Annot))
deriving DecidableEq

/-- A freshly constructed `AnnotationManager` (all maps empty). -/
def amInit : AMState := ⟨[], [], []⟩

/-- `AnnotationManager.push_undo(pg)`: append a snapshot of the page's
current record list to its bounded deque. -/
def pushUndo (s : AMState) (pg : Nat) : AMState :=
  { s with
      undoStack :=
        alSet s.undoStack pg
          (dequeAppend UNDO_DEPTH (alGet s.undoStack pg []) (alGet s.annots pg [])) }

/-- `AnnotationManager.add(pg, annot)`: push an undo snapshot, then append
the record to the page's list.  (`self.save()` touches only the disk.) -/
def addAnnot (s : AMState) (pg : Nat) (a : Annot) : AMState :=
  let s1 := pushUndo s pg
  { s1 with annots := alSet s1.annots pg (alGet s1.annots pg [] ++ [a]) }

/-- `AnnotationManager.undo(pg)`: pop the newest snapshot (deque right end)
and install it as the page's list; report whether anything was undone. -/
def undoOp (s : AMState) (pg : Nat) : AMState × Bool :=
  let stack := alGet s.undoStack pg []
  match stack.getLast? with
  | none => (s, false)
  | some snap =>
      ({ s with annots := alSet s.annots pg snap,
                undoStack := alSet s.undoStack pg stack.dropLast }, true)

/-- `AnnotationManager.rotate_page_annotations(pg, delta)`: rotate the
page's records when it has a nonempty list, then set
`rotations[pg] = (rotations.get(pg, 0) + delta) % 360`. -/
def rotatePageAnnots (s : AMState) (pg : Nat) (delta : Int) : AMState :=
  let s1 :=
    if alGet s.annots pg [] ≠ [] then
      { s with annots := alSet s.annots pg (rotateAnnotCoords (alGet s.annots pg []) delta) }
    else s
  { s1 with
      rotations :=
        alSet s1.rotations pg (Int.emod (alGet s1.rotations pg 0 + delta) 360) }

/-- `AnnotationManager` read path for rotation: `rotations.get(pg, 0)` —
a page with no entry is treated as rotation 0. -/
def getRotation (s : AMState) (pg : Nat) : Int := alGet s.rotations pg 0

/-- The uuid extraction of `erase_at`:
`next((t[5:] for t in tags if t.startswith("uuid_")), None)`. -/
def extractUuid : List String → Option String
  | [] => none
  | t :: rest => if t.startsWith "uuid_" then some (t.drop 5) else extractUuid rest

/-- `AnnotationManager.erase_at`: scan the canvas items overlapping the
eraser halo (given here as their tag lists, in `find_overlapping` order);
skip items tagged `bg`; at the first item carrying a nonempty uuid tag while
the page is present in `annotations`, push an undo snapshot, drop every
record with that uuid, and report `true`; otherwise report `false`. -/
def eraseAt (s : AMState) (pg : Nat) : List (List String) → AMState × Bool
  | [] => (s, false)
  | tags :: rest =>
      if tags.contains "bg" then eraseAt s pg rest
      else
        match extractUuid tags with
        | some uid =>
            if uid ≠ "" ∧ (alFind s.annots pg).isSome then
              let s1 := pushUndo s pg
              ({ s1 with
                    annots :=
                      alSet s1.annots pg
                        ((alGet s1.annots pg []).filter (fun a => a.uuid ≠ some uid)) },
               true)
            else eraseAt s pg rest
        | none => eraseAt s pg rest

/-! ## SafeJSON over a filesystem model -/

/-- A structured JSON-like value (what `json.dump` serialises and
`json.load` parses back). -/
inductive Json where
  | null
  | bool (b : Bool)
  | int (n : Int)
  | str (s : String)
  | arr (xs : List Json)
  | obj (kvs : List (String × Json))

/-- What a file on disk can look like to `SafeJSON.load`: valid JSON text
(held as its parsed value), text that raises `json.JSONDecodeError`, or a
file whose `open`/`read` raises some other `Exception` (e.g. a permission
error). -/
inductive FileContent where
  | json (d : Json)
  | invalid (raw : String)
  | unreadable

/-- `True` exactly for content whose read raises `json.JSONDecodeError`. -/
def FileContent.isParseError : FileContent → Bool
  | FileContent.invalid _ => true
  | _ => false

/-- A filesystem snapshot: the set of existing directories and the files
with their contents. -/
structure FS where
  dirs : List String
  files : List (String × FileContent)

/-- `os.path.dirname` for slash-separated paths (the POSIX rule: text before
the final slash, trailing slashes stripped unless the head is all
slashes). -/
def dirname (p : String) : String :=
  let rev := p.toList.reverse
  let headRev := rev.dropWhile (fun c => c ≠ '/')
  if headRev = [] then ""
  else if headRev.all (fun c => c = '/') then String.mk headRev.reverse
  else String.mk ((headRev.dropWhile (fun c => c = '/')).reverse)

/-- `os.path.exists` restricted to directories. -/
def fsDirExists (fs : FS) (d : String) : Bool := fs.dirs.contains d

/-- File existence at a path. -/
def fsFileExists (fs : FS) (p : String) : Bool := (alFind fs.files p).isSome

/-- `os.path.exists`: true for a directory or a file at the path. -/
def fsPathExists (fs : FS) (p : String) : Bool := fsDirExists fs p || fsFileExists fs p

/-- `os.replace(src, dst)`: move the content at `src` onto `dst`. -/
def fsReplace (files : List (String × FileContent)) (src dst : String) :
    List (String × FileContent) :=
  match alFind files src with
  | none => files
  | some c => alSet (files.filter (fun kv => kv.1 ≠ src)) dst c

/-- Outcome of `SafeJSON.save`: the filesystem afterwards, the returned
boolean, and whether `messagebox.showerror` was invoked. -/
structure SaveResult where
  fs : FS
  ok : Bool
  errorDialog : Bool

/-- `SafeJSON.save(filepath, data)`.  `tmp` is the fresh name produced by
`tempfile.mkstemp` in the target's directory.  If the target's directory
component is nonempty and does not exist (`os.path.exists`), an error dialog
is shown and `False` is returned with the filesystem untouched; otherwise
the data is written to `tmp` and `os.replace` moves it onto `filepath`. -/
def safeJsonSave (fs : FS) (filepath : String) (data : Json) (tmp : String) : SaveResult :=
  let dn := dirname filepath
  if dn ≠ "" ∧ fsPathExists fs dn = false then
    ⟨fs, false, true⟩
  else
    let written := alSet fs.files tmp (FileContent.json data)
    ⟨{ fs with files := fsReplace written tmp filepath }, true, false⟩

/-- Outcome of `SafeJSON.load`: the returned value and whether
`messagebox.showwarning` was invoked. -/
structure LoadResult where
  value : Json
  warnDialog : Bool

/-- `SafeJSON.load(filepath, default)`: a missing file returns the default
(`{}` when none was given); valid JSON returns its value; a parse failure
warns the user and returns the default; any other read failure silently
returns the default. -/
def safeJsonLoad (fs : FS) (filepath : String) (dflt : Option Json) : LoadResult :=
  match alFind fs.files filepath with
  | none => ⟨dflt.getD (Json.obj []), false⟩
  | some (FileContent.json d) => ⟨d, false⟩
  | some (FileContent.invalid _) => ⟨dflt.getD (Json.obj []), true⟩
  | some FileContent.unreadable => ⟨dflt.getD (Json.obj []), false⟩

/-! ## AnnotationManager.load / save (sidecar structure) -/

/-- `ANNOTATION_VERSION` (`DEFAULT_CONFIG["behavior"]["annotation_version"]`). -/
def ANNOTATION_VERSION : Int := 2

/-- The structural shape of a sidecar value as `AnnotationManager.load`
distinguishes it: an empty/falsy mapping, a versioned store (has a
`version` key, plus `rotations` and `pages`), or the legacy flat mapping
page → record list. -/
inductive Sidecar where
  | empty
  | versioned (ver : Int) (rots : List (Nat × Int)) (pages : List (Nat × List Annot))
  | legacy (pages : List (Nat × List Annot))
deriving DecidableEq

/-- The versioned-branch per-page loop: keep records that already carry a
`uuid`, assign `gen k` to those that lack one (bumping the generator
counter), and record whether any assignment happened. -/
def assignIdsIfMissing (gen : Nat → String) (k : Nat) :
    List Annot → List Annot × Nat × Bool
  | [] => ([], k, false)
  | it :: rest =>
      match it.uuid with
      | some _ =>
          let r := assignIdsIfMissing gen k rest
          (it :: r.1, r.2.1, r.2.2)
      | none =>
          let r := assignIdsIfMissing gen (k + 1) rest
          ({ it with uuid := some (gen k) } :: r.1, r.2.1, true)

/-- The legacy-branch per-page loop: every record unconditionally receives
a fresh id `gen k`. -/
def assignIdsAll (gen : Nat → String) (k : Nat) : List Annot → List Annot × Nat
  | [] => ([], k)
  | it :: rest =>
      let r := assignIdsAll gen (k + 1) rest
      ({ it with uuid := some (gen k) } :: r.1, r.2)

/-- Versioned branch over all pages. -/
def loadPagesV (gen : Nat → String) (k : Nat) :
    List (Nat × List Annot) → List (Nat × List Annot) × Nat × Bool
  | [] => ([], k, false)
  | (p, items) :: rest =>
      let a := assignIdsIfMissing gen k items
      let r := loadPagesV gen a.2.1 rest
      ((p, a.1) :: r.1, r.2.1, a.2.2 || r.2.2)

/-- Legacy branch over all pages. -/
def loadPagesL (gen : Nat → String) (k : Nat) :
    List (Nat × List Annot) → List (Nat × List Annot) × Nat
  | [] => ([], k)
  | (p, items) :: rest =>
      let a := assignIdsAll gen k items
      let r := loadPagesL gen a.2 rest
      ((p, a.1) :: r.1, r.2)

/-- `AnnotationManager.save`: the sidecar value written to disk — the
current version number, only the rotations with `r % 360 != 0`, and the
pages mapping. -/
def amSaveData (s : AMState) : Sidecar :=
  Sidecar.versioned ANNOTATION_VERSION
    (s.rotations.filter (fun kv => Int.emod kv.2 360 != 0)) s.annots

/-- Outcome of `AnnotationManager.load`: the in-memory state, the next
unconsumed generator index, whether a migration re-save was triggered
(`needs_resave`), and the sidecar value that re-save wrote, if any. -/
structure LoadOutcome where
  state : AMState
  nextId : Nat
  resaved : Bool
  savedData : Option Sidecar
deriving DecidableEq

/-- `AnnotationManager.load` on an already-parsed sidecar value `raw`,
with `uuid.uuid4()` modelled as the generator `gen` starting at index `k`.
State is cleared first; the versioned branch repairs missing ids, the
legacy branch assigns fresh ids to every record and always sets
`needs_resave`; if any id was assigned, the store is re-saved at once. -/
def amLoad (gen : Nat → String) (k : Nat) (raw : Sidecar) : LoadOutcome :=
  match raw with
  | Sidecar.empty => ⟨amInit, k, false, none⟩
  | Sidecar.versioned _ rots pages =>
      let r := loadPagesV gen k pages
      let st : AMState := ⟨r.1, rots, []⟩
      if r.2.2 then ⟨st, r.2.1, true, some (amSaveData st)⟩
      else ⟨st, r.2.1, false, none⟩
  | Sidecar.legacy pages =>
      let r := loadPagesL gen k pages
      let st : AMState := ⟨r.1, [], []⟩
      ⟨st, r.2, true, some (amSaveData st)⟩

/-- All records across all pages carry a uuid. -/
def allHaveIds (pages : List (Nat × List Annot)) : Bool :=
  pages.all (fun kv => kv.2.all (fun a => a.uuid.isSome))

/-- The uuids present across all pages, in page-then-record order. -/
def uuidList (pages : List (Nat × List Annot)) : List String :=
  ((pages.map Prod.snd).flatten).filterMap Annot.uuid

/-! ## LayoutEngine (`MusicScoreApp._render_pdf`) viewport fallback -/

/-- The viewport actually used by `_render_pdf`: `winfo_width`/`winfo_height`
unless the width is below 10, in which case the nominal 1200×850 is used
(`if win_w < 10: win_w, win_h = 1200, 850`). -/
def renderViewport (winW winH : Int) : Int × Int :=
  if winW < 10 then (1200, 850) else (winW, winH)

/-- Single-page placement size: `zoom = min(win_w/eff_w, win_h/eff_h)` and
the page bitmap spans `eff_w*zoom × eff_h*zoom` pixels. -/
def singlePagePlacement (winW winH : Int) (pw ph : ℚ) : ℚ × ℚ :=
  let v := renderViewport winW winH
  let zoom := min ((v.1 : ℚ) / pw) ((v.2 : ℚ) / ph)
  (pw * zoom, ph * zoom)

/-! ## Derived predicates and concrete fixtures -/

/-- Every stored rotation value is one of the four canonical degrees. -/
def rotValuesOk (rots : List (Nat × Int)) : Bool :=
  rots.all (fun kv => kv.2 == 0 || kv.2 == 90 || kv.2 == 180 || kv.2 == 270)

/-- Run a sequence of `rotate_page_annotations` calls. -/
def applyRotationOps (s : AMState) : List (Nat × Int) → AMState
  | [] => s
  | op :: rest => applyRotationOps (rotatePageAnnots s op.1 op.2) rest

/-- Total number of records across all pages. -/
def pageItemCount (pages : List (Nat × List Annot)) : Nat :=
  (pages.map (fun kv => kv.2.length)).sum

/-- A concrete injective uuid generator for witnesses. -/
def genU (n : Nat) : String := String.mk (List.replicate n 'u')

/-- A concrete legacy (unversioned, id-less) sidecar pages mapping. -/
def legacyPages : List (Nat × List Annot) :=
  [(0, [⟨none, AnnotKind.ink ⟨[((1 : ℚ)/2, (1 : ℚ)/2)], "red", 3⟩⟩]),
   (2, [⟨none, AnnotKind.text ⟨0, 0, "pp", "Arial", "black", 2⟩⟩])]

/-- A concrete one-ink-record page-0 state. -/
def oneInkState : AMState :=
  ⟨[(0, [⟨some "a1", AnnotKind.ink ⟨[(0, 0)], "black", 2⟩⟩])], [], []⟩

/-! ## Association-list lemmas -/

theorem alFind_alSet_self {κ α : Type} [DecidableEq κ] (l : List (κ × α)) (k : κ) (v : α) :
    alFind (alSet l k v) k = some v := by
  induction l with
  | nil => simp [alSet, alFind]
  | cons kv rest ih =>
      obtain ⟨k', v'⟩ := kv
      by_cases h : k' = k <;> simp [alSet, alFind, h, ih]

theorem alGet_alSet_self {κ α : Type} [DecidableEq κ] (l : List (κ × α)) (k : κ) (v d : α) :
    alGet (alSet l k v) k d = v := by
  simp [alGet, alFind_alSet_self]

theorem alSet_alSet_self {κ α : Type} [DecidableEq κ] (l : List (κ × α)) (k : κ) (v w : α) :
    alSet (alSet l k v) k w = alSet l k w := by
  induction l with
  | nil => simp [alSet]
  | cons kv rest ih =>
      obtain ⟨k', v'⟩ := kv
      by_cases h : k' = k <;> simp [alSet, h, ih]

theorem getLast?_dequeAppend {α : Type} (cap : Nat) (q : List α) (x : α) :
    (dequeAppend cap q x).getLast? = some x := by
  unfold dequeAppend
  split <;> simp

theorem all_alSet {κ α : Type} [DecidableEq κ] (P : κ × α → Bool) (l : List (κ × α))
    (k : κ) (v : α) (hl : l.all P = true) (hv : P (k, v) = true) :
    (alSet l k v).all P = true := by
  induction l with
  | nil => simp [alSet, hv]
  | cons kv rest ih =>
      simp only [List.all_cons, Bool.and_eq_true] at hl
      obtain ⟨k', v'⟩ := kv
      by_cases h : k' = k
      · simp [alSet, h, hv, hl.2]
      · simp [alSet, h, hl.1, ih hl.2]

theorem rotValuesOk_alGet (l : List (Nat × Int)) (pg : Nat) (h : rotValuesOk l = true) :
    alGet l pg 0 = 0 ∨ alGet l pg 0 = 90 ∨ alGet l pg 0 = 180 ∨ alGet l pg 0 = 270 := by
  induction l with
  | nil => simp [alGet, alFind]
  | cons kv rest ih =>
      simp only [rotValuesOk, List.all_cons, Bool.and_eq_true] at h
      obtain ⟨k', v'⟩ := kv
      by_cases hk : k' = pg
      · have h1 := h.1
        simp only [Bool.or_eq_true, beq_iff_eq] at h1
        simp only [alGet, alFind, hk, if_pos, Option.getD_some]
        omega
      · simpa [alGet, alFind, hk] using ih h.2

theorem rotations_rotatePageAnnots (s : AMState) (pg : Nat) (d : Int) :
    (rotatePageAnnots s pg d).rotations
      = alSet s.rotations pg (Int.emod (alGet s.rotations pg 0 + d) 360) := by
  simp only [rotatePageAnnots]
  split <;> rfl

theorem rotValuesOk_rotate (s : AMState) (pg : Nat) (d : Int)
    (hd : Int.emod d 90 = 0) (hs : rotValuesOk s.rotations = true) :
    rotValuesOk (rotatePageAnnots s pg d).rotations = true := by
  have hold := rotValuesOk_alGet s.rotations pg hs
  have hd' : d % 90 = 0 := hd
  have hv : Int.emod (alGet s.rotations pg 0 + d) 360 = 0
      ∨ Int.emod (alGet s.rotations pg 0 + d) 360 = 90
      ∨ Int.emod (alGet s.rotations pg 0 + d) 360 = 180
      ∨ Int.emod (alGet s.rotations pg 0 + d) 360 = 270 := by
    show (alGet s.rotations pg 0 + d) % 360 = 0
        ∨ (alGet s.rotations pg 0 + d) % 360 = 90
        ∨ (alGet s.rotations pg 0 + d) % 360 = 180
        ∨ (alGet s.rotations pg 0 + d) % 360 = 270
    omega
  rw [rotValuesOk, rotations_rotatePageAnnots]
  refine all_alSet _ _ _ _ hs ?_
  simp only [Bool.or_eq_true, beq_iff_eq]
  tauto

theorem applyRotationOps_preserves (ops : List (Nat × Int)) (s : AMState)
    (h1 : ops.all (fun op => Int.emod op.2 90 == 0) = true)
    (hs : rotValuesOk s.rotations = true) :
    rotValuesOk (applyRotationOps s ops).rotations = true := by
  induction ops generalizing s with
  | nil => simpa [applyRotationOps] using hs
  | cons op rest ih =>
      simp only [List.all_cons, Bool.and_eq_true, beq_iff_eq] at h1
      exact ih (rotatePageAnnots s op.1 op.2)
        (by simpa using h1.2) (rotValuesOk_rotate s op.1 op.2 h1.1 hs)

/-! ## Rotation-step lemmas -/

theorem rotStepN_add (a b : Nat) (p : ℚ × ℚ) :
    rotStepN a (rotStepN b p) = rotStepN (b + a) p := by
  induction b generalizing p with
  | zero => simp [rotStepN]
  | succ n ih =>
      show rotStepN a (rotStepN n (rotStep p)) = rotStepN (n + 1 + a) p
      rw [ih (rotStep p)]
      have h : n + 1 + a = n + a + 1 := by omega
      rw [h]
      simp [rotStepN]

theorem rotStepN_four (p : ℚ × ℚ) : rotStepN 4 p = p := by
  obtain ⟨x, y⟩ := p
  simp [rotStepN, rotStep, sub_sub_cancel]

/-- C1: on a page holding one ink record with normalised points
`[[0,0],[1,1]]`, `rotate_page_annotations(page=0, delta=90)` maps each
point by one 90° clockwise step `(nx, ny) -> (1-ny, nx)` — giving
`[[1,0],[0,1]]` — and sets the stored rotation for page 0 to 90. -/
theorem rotatePageAnnots_ink_unit_scenario :
    rotatePageAnnots
      ⟨[(0, [⟨some "a1", AnnotKind.ink ⟨[(0, 0), (1, 1)], "black", 2⟩⟩])], [], []⟩ 0 90
    = ⟨[(0, [⟨some "a1", AnnotKind.ink ⟨[(1, 0), (0, 1)], "black", 2⟩⟩])], [(0, 90)], []⟩ := by
  show AMState.mk _ _ _ = _
  norm_num [rotatePageAnnots, rotateAnnotCoords, rotateAnnot, rotPt, rotationSteps,
    rotStepN, rotStep, alGet, alFind, alSet]

/-- C2: for every delta in `{0, 90, 180, 270, 360, -90, -180}` and every
point of the unit square, rotating by the delta and then by
`(-delta) mod 360` returns the original point (exactly, over ℚ); in
particular rotation by 360 degrees is the identity. -/
theorem rotPt_inverse_roundtrip (d : Int) (p : ℚ × ℚ)
    (hd : d ∈ ([0, 90, 180, 270, 360, -90, -180] : List Int))
    (hp : 0 ≤ p.1 ∧ p.1 ≤ 1 ∧ 0 ≤ p.2 ∧ p.2 ≤ 1) :
    rotPt (Int.emod (-d) 360) (rotPt d p) = p := by
  obtain ⟨x, y⟩ := p
  simp only [List.mem_cons, List.not_mem_nil, or_false] at hd
  rcases hd with rfl | rfl | rfl | rfl | rfl | rfl | rfl
  · show rotStepN 0 (rotStepN 0 (x, y)) = (x, y)
    rfl
  · show rotStepN 3 (rotStepN 1 (x, y)) = (x, y)
    simp [rotStepN, rotStep, sub_sub_cancel]
  · show rotStepN 2 (rotStepN 2 (x, y)) = (x, y)
    simp [rotStepN, rotStep, sub_sub_cancel]
  · show rotStepN 1 (rotStepN 3 (x, y)) = (x, y)
    simp [rotStepN, rotStep, sub_sub_cancel]
  · show rotStepN 0 (rotStepN 0 (x, y)) = (x, y)
    rfl
  · show rotStepN 1 (rotStepN 3 (x, y)) = (x, y)
    simp [rotStepN, rotStep, sub_sub_cancel]
  · show rotStepN 2 (rotStepN 2 (x, y)) = (x, y)
    simp [rotStepN, rotStep, sub_sub_cancel]

theorem rotPt_inverse_roundtrip_witness :
    (90 : Int) ∈ ([0, 90, 180, 270, 360, -90, -180] : List Int)
    ∧ (0 ≤ ((1 : ℚ)/4, (1 : ℚ)/3).1 ∧ ((1 : ℚ)/4, (1 : ℚ)/3).1 ≤ 1
        ∧ 0 ≤ ((1 : ℚ)/4, (1 : ℚ)/3).2 ∧ ((1 : ℚ)/4, (1 : ℚ)/3).2 ≤ 1)
    ∧ rotPt (Int.emod (-(90 : Int)) 360) (rotPt 90 ((1 : ℚ)/4, (1 : ℚ)/3))
        = ((1 : ℚ)/4, (1 : ℚ)/3) :=
  ⟨by decide, by constructor <;> norm_num,
   rotPt_inverse_roundtrip 90 ((1 : ℚ)/4, (1 : ℚ)/3) (by decide)
     (by constructor <;> norm_num)⟩

/-- C5: for every page and every record, `undo(pg)` immediately after
`add(pg, a)` reports `true` and restores the page's record list to exactly
the list that existed before the add (same records, same ids, same order;
other pages untouched — the whole mapping equals the original with page
`pg` explicitly bound to its prior list). -/
theorem undo_after_add_restores (s : AMState) (pg : Nat) (a : Annot) :
    (undoOp (addAnnot s pg a) pg).2 = true
    ∧ (undoOp (addAnnot s pg a) pg).1.annots = alSet s.annots pg (alGet s.annots pg []) := by
  simp [addAnnot, undoOp, pushUndo, alGet_alSet_self, alSet_alSet_self, getLast?_dequeAppend]

/-- C6 counterexample: `rotate_page_annotations` takes no undo snapshot —
after rotating the one-ink page 0, the undo history is still empty, `undo`
reports `false`, and the page's list is not restored to its pre-rotation
content. -/
theorem rotate_no_snapshot_cex :
    (rotatePageAnnots oneInkState 0 90).undoStack = []
    ∧ (undoOp (rotatePageAnnots oneInkState 0 90) 0).2 = false
    ∧ alGet (undoOp (rotatePageAnnots oneInkState 0 90) 0).1.annots 0 []
        ≠ [⟨some "a1", AnnotKind.ink ⟨[(0, 0)], "black", 2⟩⟩] := by
  refine ⟨rfl, rfl, ?_⟩
  norm_num [rotatePageAnnots, undoOp, oneInkState, alGet, alFind, alSet,
    rotateAnnotCoords, rotateAnnot, rotPt, rotationSteps, rotStepN, rotStep]

/-- C6 amended: a full snapshot of the page's current record sequence is
pushed onto the bounded per-page undo history (depth 20, oldest discarded)
immediately before the `add` mutation, and before the `erase` mutation
exactly when it removes something; `rotate_page_annotations` pushes no
snapshot, so a rotation cannot be undone. -/
theorem snapshot_before_add_erase_not_rotate (s : AMState) (pg : Nat) (a : Annot)
    (hits : List (List String)) (d : Int) :
    (addAnnot s pg a).undoStack
        = alSet s.undoStack pg
            (dequeAppend UNDO_DEPTH (alGet s.undoStack pg []) (alGet s.annots pg []))
    ∧ (eraseAt s pg hits).1.undoStack
        = (if (eraseAt s pg hits).2 then
              alSet s.undoStack pg
                (dequeAppend UNDO_DEPTH (alGet s.undoStack pg []) (alGet s.annots pg []))
            else s.undoStack)
    ∧ (rotatePageAnnots s pg d).undoStack = s.undoStack := by
  refine ⟨rfl, ?_, ?_⟩
  · induction hits with
    | nil => simp [eraseAt]
    | cons tags rest ih =>
        simp only [eraseAt]
        by_cases hbg : tags.contains "bg" = true
        · simp only [hbg, if_true]
          exact ih
        · rw [Bool.not_eq_true] at hbg
          simp only [hbg, Bool.false_eq_true, if_false]
          cases hext : extractUuid tags with
          | none => exact ih
          | some uid =>
              dsimp only
              by_cases hc : uid ≠ "" ∧ (alFind s.annots pg).isSome = true
              · rw [if_pos hc]
                simp [pushUndo]
              · rw [if_neg hc]
                exact ih
  · simp only [rotatePageAnnots]
    split <;> rfl

/-- C7 counterexample: calling `rotate_page_annotations(0, 45)` on a fresh
manager stores the rotation value 45, which is not one of
`{0, 90, 180, 270}` — a non-multiple-of-90 delta is reduced modulo 360 but
not normalised into the canonical set. -/
theorem rotate_delta45_cex :
    alGet (rotatePageAnnots amInit 0 45).rotations 0 0 = 45
    ∧ ¬((45 : Int) = 0 ∨ (45 : Int) = 90 ∨ (45 : Int) = 180 ∨ (45 : Int) = 270) := by
  exact ⟨rfl, by decide⟩

/-- C7 amended: under every sequence of `rotate_page_annotations` calls
whose deltas are all multiples of 90, starting from a fresh manager, every
value stored in the rotation map is one of `{0, 90, 180, 270}` (deltas are
normalised via modulo 360); a page with no entry is treated as rotation 0
(`rotations.get(pg, 0)`).  A non-multiple-of-90 delta escapes the canonical
set, as the counterexample shows. -/
theorem rotations_canonical_for_90_multiples (ops : List (Nat × Int)) (s : AMState) (pg : Nat)
    (h1 : ops.all (fun op => Int.emod op.2 90 == 0) = true)
    (h2 : alFind s.rotations pg = none) :
    rotValuesOk (applyRotationOps amInit ops).rotations = true
    ∧ getRotation s pg = 0 := by
  constructor
  · exact applyRotationOps_preserves ops amInit h1 rfl
  · simp [getRotation, alGet, h2]

theorem rotations_canonical_witness :
    ([((0 : Nat), (90 : Int)), (1, -90), (0, 270)].all
        (fun op => Int.emod op.2 90 == 0) = true)
    ∧ alFind amInit.rotations 3 = none
    ∧ (rotValuesOk (applyRotationOps amInit [((0 : Nat), (90 : Int)), (1, -90), (0, 270)]).rotations
          = true
        ∧ getRotation amInit 3 = 0) :=
  ⟨by decide, rfl,
   rotations_canonical_for_90_multiples [((0 : Nat), (90 : Int)), (1, -90), (0, 270)]
     amInit 3 (by decide) rfl⟩

/-- C3: `SafeJSON.save` to a target whose (nonempty) parent directory does
not exist returns `False`, leaves the filesystem untouched — in particular
no file appears at the target path and no temporary file is left behind —
and shows the error dialog. -/
theorem save_missing_dir_fails (fs : FS) (path : String) (d : Json) (tmp : String)
    (h1 : dirname path ≠ "") (h2 : fsPathExists fs (dirname path) = false)
    (h3 : fsFileExists fs path = false) :
    (safeJsonSave fs path d tmp).ok = false
    ∧ (safeJsonSave fs path d tmp).fs = fs
    ∧ fsFileExists (safeJsonSave fs path d tmp).fs path = false
    ∧ (safeJsonSave fs path d tmp).errorDialog = true := by
  have hcond : dirname path ≠ "" ∧ fsPathExists fs (dirname path) = false := ⟨h1, h2⟩
  simp only [safeJsonSave]
  rw [if_pos hcond]
  exact ⟨rfl, rfl, h3, rfl⟩

theorem save_missing_dir_fails_witness :
    dirname "missing/out.json" ≠ ""
    ∧ fsPathExists ⟨[], []⟩ (dirname "missing/out.json") = false
    ∧ fsFileExists ⟨[], []⟩ "missing/out.json" = false
    ∧ ((safeJsonSave ⟨[], []⟩ "missing/out.json" Json.null "missing/tmp0").ok = false
        ∧ (safeJsonSave ⟨[], []⟩ "missing/out.json" Json.null "missing/tmp0").fs = ⟨[], []⟩
        ∧ fsFileExists (safeJsonSave ⟨[], []⟩ "missing/out.json" Json.null "missing/tmp0").fs
            "missing/out.json" = false
        ∧ (safeJsonSave ⟨[], []⟩ "missing/out.json" Json.null "missing/tmp0").errorDialog
            = true) :=
  ⟨by decide, rfl, rfl,
   save_missing_dir_fails ⟨[], []⟩ "missing/out.json" Json.null "missing/tmp0"
     (by decide) rfl rfl⟩

/-- C8: for every structured value and every target whose parent directory
exists, `SafeJSON.save` succeeds and a subsequent `SafeJSON.load` of the
same path returns exactly the saved value (deep equality of the structured
value, so null fields and Unicode strings are preserved), with no warning
dialog. -/
theorem save_load_roundtrip (fs : FS) (path tmp : String) (d : Json)
    (h : fsDirExists fs (dirname path) = true) :
    (safeJsonSave fs path d tmp).ok = true
    ∧ safeJsonLoad (safeJsonSave fs path d tmp).fs path none = ⟨d, false⟩ := by
  have hcond : ¬(dirname path ≠ "" ∧ fsPathExists fs (dirname path) = false) := by
    simp [fsPathExists, h]
  simp only [safeJsonSave]
  rw [if_neg hcond]
  refine ⟨rfl, ?_⟩
  simp [safeJsonLoad, fsReplace, alFind_alSet_self]

theorem save_load_roundtrip_witness :
    fsDirExists ⟨["d"], []⟩ (dirname "d/a.json") = true
    ∧ ((safeJsonSave ⟨["d"], []⟩ "d/a.json"
          (Json.obj [("title", Json.str "Sonate für Trompete ♩"), ("end", Json.null)])
          "d/tmp0").ok = true
        ∧ safeJsonLoad
            (safeJsonSave ⟨["d"], []⟩ "d/a.json"
              (Json.obj [("title", Json.str "Sonate für Trompete ♩"), ("end", Json.null)])
              "d/tmp0").fs "d/a.json" none
          = ⟨Json.obj [("title", Json.str "Sonate für Trompete ♩"), ("end", Json.null)],
             false⟩) :=
  ⟨by decide,
   save_load_roundtrip ⟨["d"], []⟩ "d/a.json" "d/tmp0"
     (Json.obj [("title", Json.str "Sonate für Trompete ♩"), ("end", Json.null)])
     (by decide)⟩

/-- C10: `SafeJSON.load` on an existing file whose read fails with an error
other than a JSON parse error returns the default value (the empty mapping
when no default is given) silently, with no user-visible dialog; the
warning dialog fires exactly when the file exists and its content raises a
parse error. -/
theorem load_unreadable_silent_default (fs fs2 : FS) (path path2 : String)
    (d d2 : Option Json) (h : alFind fs.files path = some FileContent.unreadable) :
    safeJsonLoad fs path d = ⟨d.getD (Json.obj []), false⟩
    ∧ (safeJsonLoad fs2 path2 d2).warnDialog
        = ((alFind fs2.files path2).map FileContent.isParseError).getD false := by
  constructor
  · simp [safeJsonLoad, h]
  · cases h2 : alFind fs2.files path2 with
    | none => simp [safeJsonLoad, h2]
    | some c => cases c <;> simp [safeJsonLoad, h2, FileContent.isParseError]

theorem load_unreadable_silent_default_witness :
    alFind (FS.mk [] [("p.json", FileContent.unreadable)]).files "p.json"
        = some FileContent.unreadable
    ∧ (safeJsonLoad ⟨[], [("p.json", FileContent.unreadable)]⟩ "p.json" none
          = ⟨(none : Option Json).getD (Json.obj []), false⟩
        ∧ (safeJsonLoad ⟨[], [("q.json", FileContent.invalid "bad")]⟩ "q.json" none).warnDialog
            = ((alFind (FS.mk [] [("q.json", FileContent.invalid "bad")]).files
                  "q.json").map FileContent.isParseError).getD false) :=
  ⟨by simp [alFind],
   load_unreadable_silent_default ⟨[], [("p.json", FileContent.unreadable)]⟩
     ⟨[], [("q.json", FileContent.invalid "bad")]⟩ "p.json" "q.json" none none
     (by simp [alFind])⟩

/-- C9 counterexample: the fallback in `_render_pdf` tests only
`win_w < 10`.  A viewport of width 100 and height 0 (zero height, adequate
width) is not replaced by the nominal 1200×850 size, and the resulting
single-page placement for an A4-sized page (595×842 points) has zero
area. -/
theorem viewport_zero_height_cex :
    renderViewport 100 0 = (100, 0)
    ∧ renderViewport 100 0 ≠ (1200, 850)
    ∧ (singlePagePlacement 100 0 595 842).1 * (singlePagePlacement 100 0 595 842).2 = 0 := by
  refine ⟨rfl, by decide, ?_⟩
  have hmin : min ((100 : ℚ)/595) ((0 : ℚ)/842) = 0 := by
    rw [zero_div]
    exact min_eq_right (by positivity)
  show (595 : ℚ) * min (((100 : Int) : ℚ)/595) (((0 : Int) : ℚ)/842)
      * ((842 : ℚ) * min (((100 : Int) : ℚ)/595) (((0 : Int) : ℚ)/842)) = 0
  push_cast
  rw [hmin]
  ring

/-- C9 amended: the fallback replaces the viewport with the fixed nominal
1200×850 whenever the reported width is below 10 — which covers every zero
or negative width (the height is then replaced too) — and under that
fallback, with positive page dimensions, every placement rectangle has
positive width and height and no division by zero occurs (the divisors are
the page dimensions).  A zero or negative height with width ≥ 10 is not
guarded, as the counterexample shows. -/
theorem viewport_small_width_fallback (winW winH : Int) (pw ph : ℚ)
    (h : winW < 10) (hpw : 0 < pw) (hph : 0 < ph) :
    renderViewport winW winH = (1200, 850)
    ∧ 0 < (singlePagePlacement winW winH pw ph).1
    ∧ 0 < (singlePagePlacement winW winH pw ph).2 := by
  have hv : renderViewport winW winH = (1200, 850) := by
    simp [renderViewport, h]
  have hzoom : 0 < min (((1200 : Int) : ℚ) / pw) (((850 : Int) : ℚ) / ph) := by
    apply lt_min
    · positivity
    · positivity
  refine ⟨hv, ?_, ?_⟩
  · show 0 < pw * min (((renderViewport winW winH).1 : ℚ) / pw)
        (((renderViewport winW winH).2 : ℚ) / ph)
    rw [hv]
    exact mul_pos hpw hzoom
  · show 0 < ph * min (((renderViewport winW winH).1 : ℚ) / pw)
        (((renderViewport winW winH).2 : ℚ) / ph)
    rw [hv]
    exact mul_pos hph hzoom

theorem viewport_small_width_fallback_witness :
    (0 : Int) < 10 ∧ (0 : ℚ) < 612 ∧ (0 : ℚ) < 792
    ∧ (renderViewport 0 (-5) = (1200, 850)
        ∧ 0 < (singlePagePlacement 0 (-5) 612 792).1
        ∧ 0 < (singlePagePlacement 0 (-5) 612 792).2) :=
  ⟨by decide, by norm_num, by norm_num,
   viewport_small_width_fallback 0 (-5) 612 792 (by decide) (by norm_num) (by norm_num)⟩

/-! ## Legacy-migration lemmas (AnnotationManager.load) -/

theorem assignIdsAll_spec (gen : Nat → String) (k : Nat) (items : List Annot) :
    ((assignIdsAll gen k items).1).filterMap Annot.uuid = (List.range' k items.length).map gen
    ∧ (assignIdsAll gen k items).2 = k + items.length
    ∧ ((assignIdsAll gen k items).1).all (fun a => a.uuid.isSome) = true := by
  induction items generalizing k with
  | nil => simp [assignIdsAll]
  | cons it rest ih =>
      obtain ⟨h1, h2, h3⟩ := ih (k + 1)
      refine ⟨?_, ?_, ?_⟩
      · simp only [assignIdsAll, List.filterMap_cons, List.length_cons]
        rw [List.range'_succ k rest.length 1]
        simp [h1]
      · simp only [assignIdsAll, List.length_cons]
        rw [h2]
        omega
      · simp [assignIdsAll, h3]

theorem loadPagesL_spec (gen : Nat → String) (k : Nat) (pages : List (Nat × List Annot)) :
    uuidList (loadPagesL gen k pages).1 = (List.range' k (pageItemCount pages)).map gen
    ∧ (loadPagesL gen k pages).2 = k + pageItemCount pages
    ∧ allHaveIds (loadPagesL gen k pages).1 = true := by
  induction pages generalizing k with
  | nil => simp [loadPagesL, uuidList, pageItemCount, allHaveIds]
  | cons pv rest ih =>
      obtain ⟨p, items⟩ := pv
      obtain ⟨ha1, ha2, ha3⟩ := assignIdsAll_spec gen k items
      obtain ⟨h1, h2, h3⟩ := ih (assignIdsAll gen k items).2
      have hcnt : pageItemCount ((p, items) :: rest) = items.length + pageItemCount rest := by
        simp [pageItemCount]
      refine ⟨?_, ?_, ?_⟩
      · simp only [loadPagesL, uuidList, List.map_cons, List.flatten_cons,
          List.filterMap_append]
        show (assignIdsAll gen k items).1.filterMap Annot.uuid
            ++ uuidList (loadPagesL gen (assignIdsAll gen k items).2 rest).1
          = (List.range' k (pageItemCount ((p, items) :: rest))).map gen
        rw [ha1, h1, ha2, hcnt]
        rw [← List.map_append]
        congr 1
        simp [Nat.add_comm]
      · simp only [loadPagesL]
        show (loadPagesL gen (assignIdsAll gen k items).2 rest).2 = _
        rw [h2, ha2, hcnt]
        omega
      · simp only [loadPagesL, allHaveIds, List.all_cons, Bool.and_eq_true]
        exact ⟨ha3, h3⟩

theorem assignIdsIfMissing_noop (gen : Nat → String) (k : Nat) (items : List Annot)
    (h : items.all (fun a => a.uuid.isSome) = true) :
    assignIdsIfMissing gen k items = (items, k, false) := by
  induction items with
  | nil => rfl
  | cons it rest ih =>
      simp only [List.all_cons, Bool.and_eq_true] at h
      cases hu : it.uuid with
      | none => rw [hu] at h; simp at h
      | some u => simp [assignIdsIfMissing, hu, ih h.2]

theorem loadPagesV_noop (gen : Nat → String) (k : Nat) (pages : List (Nat × List Annot))
    (h : allHaveIds pages = true) :
    loadPagesV gen k pages = (pages, k, false) := by
  induction pages generalizing k with
  | nil => rfl
  | cons pv rest ih =>
      obtain ⟨p, items⟩ := pv
      simp only [allHaveIds, List.all_cons, Bool.and_eq_true] at h
      simp [loadPagesV, assignIdsIfMissing_noop gen k items h.1, ih k h.2]

theorem genU_injective : Function.Injective genU := by
  intro a b hab
  have hdata := congrArg String.data hab
  have hlen := congrArg List.length hdata
  simpa [genU] using hlen

/-- C4: loading a legacy unversioned sidecar (flat page → items mapping,
no ids) assigns a freshly generated id to every record, all assigned ids
are pairwise distinct, the store is immediately re-saved in the current
versioned format, and a second load of that saved data finds an id on
every record and assigns no new ids — the resulting state and generator
counter are unchanged and no further re-save is triggered. -/
theorem amLoad_legacy_migration (gen : Nat → String) (k : Nat)
    (pages : List (Nat × List Annot)) (hinj : Function.Injective gen) :
    allHaveIds (amLoad gen k (Sidecar.legacy pages)).state.annots = true
    ∧ (uuidList (amLoad gen k (Sidecar.legacy pages)).state.annots).Nodup
    ∧ (amLoad gen k (Sidecar.legacy pages)).resaved = true
    ∧ (amLoad gen k (Sidecar.legacy pages)).savedData
        = some (amSaveData (amLoad gen k (Sidecar.legacy pages)).state)
    ∧ amLoad gen (amLoad gen k (Sidecar.legacy pages)).nextId
        (amSaveData (amLoad gen k (Sidecar.legacy pages)).state)
      = ⟨(amLoad gen k (Sidecar.legacy pages)).state,
          (amLoad gen k (Sidecar.legacy pages)).nextId, false, none⟩ := by
  obtain ⟨h1, h2, h3⟩ := loadPagesL_spec gen k pages
  have hann : (amLoad gen k (Sidecar.legacy pages)).state.annots
      = (loadPagesL gen k pages).1 := rfl
  refine ⟨?_, ?_, rfl, rfl, ?_⟩
  · rw [hann]
    exact h3
  · rw [hann, h1]
    exact (List.nodup_range' k (pageItemCount pages)).map hinj
  · have hst : (amLoad gen k (Sidecar.legacy pages)).state
        = ⟨(loadPagesL gen k pages).1, [], []⟩ := rfl
    have hnext : (amLoad gen k (Sidecar.legacy pages)).nextId
        = (loadPagesL gen k pages).2 := rfl
    have hsave : amSaveData ⟨(loadPagesL gen k pages).1, [], []⟩
        = Sidecar.versioned ANNOTATION_VERSION [] (loadPagesL gen k pages).1 := rfl
    rw [hst, hnext, hsave]
    simp only [amLoad]
    rw [loadPagesV_noop gen (loadPagesL gen k pages).2 (loadPagesL gen k pages).1 h3]
    simp

theorem amLoad_legacy_migration_witness :
    Function.Injective genU
    ∧ (allHaveIds (amLoad genU 0 (Sidecar.legacy legacyPages)).state.annots = true
        ∧ (uuidList (amLoad genU 0 (Sidecar.legacy legacyPages)).state.annots).Nodup
        ∧ (amLoad genU 0 (Sidecar.legacy legacyPages)).resaved = true
        ∧ (amLoad genU 0 (Sidecar.legacy legacyPages)).savedData
            = some (amSaveData (amLoad genU 0 (Sidecar.legacy legacyPages)).state)
        ∧ amLoad genU (amLoad genU 0 (Sidecar.legacy legacyPages)).nextId
            (amSaveData (amLoad genU 0 (Sidecar.legacy legacyPages)).state)
          = ⟨(amLoad genU 0 (Sidecar.legacy legacyPages)).state,
              (amLoad genU 0 (Sidecar.legacy legacyPages)).nextId, false, none⟩) :=
  ⟨genU_injective, amLoad_legacy_migration genU 0 legacyPages genU_injective⟩
